import Mathlib

/-!
Verification of the coaching-leads backend (`main.py`, `schemas.py`).

The development shallowly embeds the crawl-and-ingest pipeline and the
store-facing endpoints.  Pure Python string manipulation is translated to
executable Lean functions on `String` / `List Char`; network fetches and
page parsing (the `requests` / `BeautifulSoup` collaborators) are modelled
by `Option`-valued oracles (a `none` outcome stands for any raised
exception, which the source absorbs locally); the MongoDB store
(`database.py` is not part of the sources, and `pymongo` is external) is
modelled from the spec as a list of records with `find_one` as `List.find?`
and the anchored case-insensitive `$regex` filter as case-insensitive exact
match, per the spec's external-interface section.
-/

set_option maxRecDepth 4096
set_option maxHeartbeats 1600000

namespace CoachingLeads

/-- Python `needle in hay` on lists of characters: some tail of `hay`
starts with `needle`. -/
def listHasSub (needle : List Char) : List Char → Bool
  | [] => needle.isEmpty
  | c :: rest => needle.isPrefixOf (c :: rest) || listHasSub needle rest

/-- Python substring test `needle in hay` on strings. -/
def pyIn (needle hay : String) : Bool :=
  listHasSub needle.data hay.data

/-- Python `str.lower()` (ASCII case folding, as used on the scraped
names, cities and URLs of this backend). -/
def pyLower (s : String) : String := String.mk (s.data.map Char.toLower)

/-- Python slicing `s[:n]`: the first `n` characters. -/
def pyTake (s : String) (n : Nat) : String := String.mk (s.data.take n)

/-- Python `s.startswith(needle)`. -/
def pyStartsWith (needle s : String) : Bool := needle.data.isPrefixOf s.data

/-- Python `str.strip()`: remove leading and trailing whitespace. -/
def pyStrip (s : String) : String :=
  String.mk (((s.data.dropWhile Char.isWhitespace).reverse.dropWhile
    Char.isWhitespace).reverse)

/-- Python `str.title()` restricted to the cased-character behaviour the
source exercises: a letter that follows a non-letter is uppercased, a
letter that follows a letter is lowercased, other characters pass
through.  The boolean argument records whether the previous character was
a letter. -/
def pyTitleAux : Bool → List Char → List Char
  | _, [] => []
  | prevAlpha, c :: rest =>
    if c.isAlpha then
      (if prevAlpha then c.toLower else c.toUpper) :: pyTitleAux true rest
    else
      c :: pyTitleAux false rest

/-- Python `str.title()`. -/
def pyTitle (s : String) : String := String.mk (pyTitleAux false s.data)

/-- Python `str.replace("www.", "")`: remove every (non-overlapping,
left-to-right) occurrence of `www.`. -/
def removeWWW : List Char → List Char
  | 'w' :: 'w' :: 'w' :: '.' :: rest => removeWWW rest
  | c :: rest => c :: removeWWW rest
  | [] => []

/-- Python `str.replace("tel:", "")` used on `tel:` hyperlink targets:
remove every occurrence of `tel:`. -/
def removeTelScheme : List Char → List Char
  | 't' :: 'e' :: 'l' :: ':' :: rest => removeTelScheme rest
  | c :: rest => c :: removeTelScheme rest
  | [] => []

/-- Characters that end the authority component of a URL,
as in `urllib.parse`. -/
def endsNetloc (c : Char) : Bool := c = '/' || c = '?' || c = '#'

/-- Drop characters up to and including the first `://`. -/
def afterSchemeSep : List Char → Option (List Char)
  | ':' :: '/' :: '/' :: rest => some rest
  | _ :: rest => afterSchemeSep rest
  | [] => none

/-- Modelled from `urllib.parse.urlparse(url).netloc` (the `urllib`
library is external to the repository): the authority component of the
URL, i.e. what stands between `://` and the next `/`, `?` or `#`; empty
when the URL has no `://`. -/
def netloc (url : String) : String :=
  match afterSchemeSep url.data with
  | some rest => String.mk (rest.takeWhile (fun c => !endsNetloc c))
  | none => ""

/-- Python truthiness of an optional string: present and non-empty. -/
def truthy : Option String → Bool
  | some s => !s.isEmpty
  | none => false

/-- A `meta` tag of a fetched HTML page, as seen by the extractor: its
`name` attribute, its `property` attribute and its `content` attribute,
each possibly absent. -/
structure MetaTag where
  name : Option String
  property : Option String
  content : Option String
deriving Repr, DecidableEq

/-- An `a` (anchor) tag: its `href` attribute and whether it matches the
search page's primary result selector `a.result__a`. -/
structure Anchor where
  href : Option String
  resultAnchor : Bool
deriving Repr, DecidableEq

/-- The parts of a fetched, parsed HTML page that the source inspects:
the document title string (absent when there is no title tag or it has no
string), its `meta` tags and its anchors, in document order. -/
structure PageDoc where
  title : Option String
  metas : List MetaTag
  anchors : List Anchor
deriving Repr, DecidableEq

/-- BeautifulSoup `soup.find` for a `meta` tag with a given `name`
attribute value: the first such tag. -/
def findMetaNamed (metas : List MetaTag) (n : String) : Option MetaTag :=
  metas.find? (fun m => m.name == some n)

/-- BeautifulSoup `soup.find` for a `meta` tag with a given `property`
attribute value: the first such tag. -/
def findMetaProp (metas : List MetaTag) (p : String) : Option MetaTag :=
  metas.find? (fun m => m.property == some p)

/-- The extracted per-page record of `_extract_basic_page_info`: the
`info` dict with keys name, address, phone, website, google_maps_url and
description. -/
structure Info where
  name : Option String
  address : Option String
  phone : Option String
  website : Option String
  google_maps_url : Option String
  description : Option String
deriving Repr, DecidableEq

/-- The fields of `info` that `_extract_basic_page_info` sets before the
`try` block, from the link alone: `website` is the link unless it
contains the substring `google.`, and `google_maps_url` is the link when
it contains `google.com/maps` or `goo.gl/maps`. -/
def presetInfo (link : String) : Info :=
  { name := none
    address := none
    phone := none
    website := if pyIn "google." link then none else some link
    google_maps_url :=
      if pyIn "google.com/maps" link || pyIn "goo.gl/maps" link then some link else none
    description := none }

/-- The title step of `_extract_basic_page_info`: when the page has a
title tag with a truthy string, set `name` to the stripped title
truncated to 120 characters. -/
def applyTitle (page : PageDoc) (info : Info) : Info :=
  match page.title with
  | some t =>
    if !t.isEmpty then
      let t := pyStrip t
      if !t.isEmpty then { info with name := some (pyTake t 120) } else info
    else info
  | none => info

/-- The description step of `_extract_basic_page_info`: look up a `meta`
tag named `description` first, then one with property `og:description`,
and when the found tag has truthy content set `description` to it
truncated to 300 characters. -/
def applyDescription (page : PageDoc) (info : Info) : Info :=
  match (findMetaNamed page.metas "description").orElse
      (fun _ => findMetaProp page.metas "og:description") with
  | some m =>
    match m.content with
    | some c => if !c.isEmpty then { info with description := some (pyTake c 300) } else info
    | none => info
  | none => info

/-- The `og:title` step of `_extract_basic_page_info`: when a `meta` tag
with property `og:title` has truthy content, overwrite `name` with it
truncated to 120 characters. -/
def applyOgTitle (page : PageDoc) (info : Info) : Info :=
  match findMetaProp page.metas "og:title" with
  | some m =>
    match m.content with
    | some c => if !c.isEmpty then { info with name := some (pyTake c 120) } else info
    | none => info
  | none => info

/-- The telephone step of `_extract_basic_page_info`: when the page has
an anchor whose `href` starts with `tel:`, set `phone` to its target
with the scheme removed and whitespace stripped. -/
def applyTel (page : PageDoc) (info : Info) : Info :=
  match page.anchors.find? (fun a =>
      match a.href with
      | some h => pyStartsWith "tel:" h
      | none => false) with
  | some a =>
    { info with phone := some (pyStrip (String.mk (removeTelScheme (a.href.getD "").data))) }
  | none => info

/-- `_extract_basic_page_info(link)`.  The `fetch` argument models the
outcome of `requests.get` plus parsing: `none` stands for any exception
raised inside the `try` block (then the record is returned with whatever
fields were already set), `some page` for a successfully fetched and
parsed page, whose fields are then applied in source order: title,
description, og:title, telephone link. -/
def extract_basic_page_info (link : String) (fetch : Option PageDoc) : Info :=
  let info := presetInfo link
  match fetch with
  | none => info
  | some page => applyTel page (applyOgTitle page (applyDescription page (applyTitle page info)))

/-- The primary/fallback link-collection loops of `_ddg_search_urls`:
walk the anchors, keep `href`s that start with `http`, and stop as soon
as the collected list has reached `limit` entries (the length test runs
after each possible append, as in the source). -/
def collectHttpLinks (limit : Nat) (acc : List String) : List Anchor → List String
  | [] => acc
  | a :: rest =>
    let acc :=
      match a.href with
      | some h => if pyStartsWith "http" h then acc ++ [h] else acc
      | none => acc
    if limit ≤ acc.length then acc else collectHttpLinks limit acc rest

/-- The links `_ddg_search_urls` parses out of the result page: first the
anchors matching the primary selector `a.result__a`; if that yields no
links, all anchors. -/
def parsedLinks (page : PageDoc) (limit : Nat) : List String :=
  let links := collectHttpLinks limit [] (page.anchors.filter (fun a => a.resultAnchor))
  if links.isEmpty then collectHttpLinks limit [] page.anchors else links

/-- The domain-deduplication loop of `_ddg_search_urls`: keep a link when
its `netloc` has not been seen, and stop once `uniq` has `limit`
entries. -/
def dedupDomains (limit : Nat) (seen uniq : List String) : List String → List String
  | [] => uniq
  | l :: rest =>
    let dom := netloc l
    let seen2 := if seen.contains dom then seen else seen ++ [dom]
    let uniq2 := if seen.contains dom then uniq else uniq ++ [l]
    if limit ≤ uniq2.length then uniq2 else dedupDomains limit seen2 uniq2 rest

/-- `_ddg_search_urls(query, limit)`.  The `fetch` argument models the
outcome of the single `requests.get` of the search page together with
`raise_for_status`: `none` stands for any exception (the function then
returns the empty list), `some page` for a parsed result page. -/
def ddg_search_urls (fetch : Option PageDoc) (limit : Nat) : List String :=
  match fetch with
  | none => []
  | some page => dedupDomains limit [] [] (parsedLinks page limit)

/-- A record of the `coaching` collection, with the fields of the
`Coaching` schema of `schemas.py`, which are exactly the keys of the
`doc` dict built by `crawl_and_ingest`.  `size` carries the optional
integer (`ge=0` is a pydantic annotation on input validation); `location`
is never populated by any operation modelled here, so its lat/lng payload
is left abstract as `Unit`; the wall-clock `updated_at` timestamp written
by `update_status` is not modelled. -/
structure Coaching where
  name : String
  city : String
  exams : List String
  size : Option Int
  address : Option String
  phone : Option String
  website : Option String
  google_maps_url : Option String
  images : List String
  location : Option Unit
  description : Option String
  status : String
deriving Repr, DecidableEq

/-- The store, modelled from the spec: the Lead Store is a document
collection holding coaching records; `insert` appends, `find-one`
returns the first record matching a filter. -/
abbrev Store := List Coaching

/-- Modelled from the spec: the store's case-insensitive exact match
filter semantics, which is how the anchored case-insensitive
`$regex` filters issued by the source are specified to behave
(the store itself, `database.py` / `pymongo`, is not among the
sources). -/
def ciEq (a b : String) : Bool := pyLower a == pyLower b

/-- Modelled from the spec: `db["coaching"].find_one({"website": w})` —
the first record whose website equals `w` exactly. -/
def findOneByWebsite (store : Store) (w : String) : Option Coaching :=
  store.find? (fun r => r.website == some w)

/-- Modelled from the spec: `find_one` with the anchored case-insensitive
regex filter on `name` and `city` — the first record whose name and city
match case-insensitively exactly. -/
def findOneByNameCity (store : Store) (nm city : String) : Option Coaching :=
  store.find? (fun r => ciEq r.name nm && ciEq r.city city)

/-- The name the coordinator synthesizes when the extracted name is not
truthy: `urlparse(link).netloc.replace('www.', '').split('.')[0].title()`
followed by `" Coaching"`. -/
def synthName (link : String) : String :=
  pyTitle (String.mk ((removeWWW (netloc link).data).takeWhile (fun c => c ≠ '.'))) ++ " Coaching"

/-- The in-batch dedup key of `crawl_and_ingest`:
`(info.get("name") or link)[:120].lower()`. -/
def dedupKey (link : String) (info : Info) : String :=
  pyLower (pyTake (if truthy info.name then info.name.getD "" else link) 120)

/-- The `doc` dict `crawl_and_ingest` builds for one candidate link. -/
def mkDoc (city : String) (exams : List String) (link : String) (info : Info) : Coaching :=
  { name := if truthy info.name then info.name.getD "" else synthName link
    city := city
    exams := exams
    size := none
    address := info.address
    phone := info.phone
    website := info.website
    google_maps_url := info.google_maps_url
    images := []
    location := none
    description := info.description
    status := "neutral" }

/-- The store-dedup step of `crawl_and_ingest` (the `exists` variable):
when the draft's website is truthy, look the website up exactly; when
that found nothing, look up name and city case-insensitively. -/
def storeDedup (store : Store) (city : String) (doc : Coaching) : Option Coaching :=
  let ex :=
    match doc.website with
    | some w => if !w.isEmpty then findOneByWebsite store w else none
    | none => none
  match ex with
  | some r => some r
  | none => findOneByNameCity store doc.name city

/-- The mutable state of the ingestion loop of `crawl_and_ingest`:
the `created` counter, the `seen_keys` set (as a list) and the store. -/
structure IngestState where
  created : Nat
  seen : List String
  store : Store
deriving Repr, DecidableEq

/-- One iteration of the ingestion loop of `crawl_and_ingest` for the
candidate `link`: extract, in-batch dedup by key, build the draft,
store-dedup, then insert.  `extract` models `_extract_basic_page_info`;
`insertFails link = true` models `insert_one` raising (the exception is
swallowed and nothing is counted). -/
def ingestStep (city : String) (exams : List String) (insertFails : String → Bool)
    (extract : String → Info) (st : IngestState) (link : String) : IngestState :=
  let info := extract link
  let key := dedupKey link info
  if st.seen.contains key then st
  else
    let seen := st.seen ++ [key]
    let doc := mkDoc city exams link info
    match storeDedup st.store city doc with
    | some _ => { st with seen := seen }
    | none =>
      if insertFails link then { st with seen := seen }
      else { created := st.created + 1, seen := seen, store := st.store ++ [doc] }

/-- The ingestion loop of `crawl_and_ingest` over the collected
candidate links. -/
def ingestLoop (city : String) (exams : List String) (insertFails : String → Bool)
    (extract : String → Info) (st : IngestState) : List String → IngestState
  | [] => st
  | link :: rest =>
      ingestLoop city exams insertFails extract
        (ingestStep city exams insertFails extract st link) rest

/-- The `base_terms` query list of `crawl_and_ingest`: three fixed
templates with the city, then two templates per exam, in exam order. -/
def buildBaseTerms (city : String) (exams : List String) : List String :=
  ["coaching institute " ++ city, "tuition classes " ++ city, "test prep coaching " ++ city]
    ++ exams.flatMap (fun ex => [ex ++ " coaching " ++ city, ex ++ " classes " ++ city])

/-- The inner URL-merging loop of `crawl_and_ingest`: append each URL not
already collected, and stop as soon as the collected list has reached
`limit` entries (the length test runs after each possible append). -/
def mergeUrls (limit : Nat) (collected : List String) : List String → List String
  | [] => collected
  | u :: rest =>
    let collected := if collected.contains u then collected else collected ++ [u]
    if limit ≤ collected.length then collected else mergeUrls limit collected rest

/-- The outer query loop of `crawl_and_ingest`: issue each query in order
with the per-query limit `perLim`, merge the URLs, and stop issuing
further queries once the collected list has reached `limit` entries.
Besides the collected list it returns the log of issued
(query, per-query limit) calls, so that theorems can speak about which
searches were performed. -/
def collectLoop (search : String → Nat → List String) (limit perLim : Nat)
    (collected : List String) (issued : List (String × Nat)) :
    List String → List String × List (String × Nat)
  | [] => (collected, issued)
  | q :: qs =>
    let urls := search q perLim
    let issued := issued ++ [(q, perLim)]
    let collected := mergeUrls limit collected urls
    if limit ≤ collected.length then (collected, issued)
    else collectLoop search limit perLim collected issued qs

/-- The request body of the `/crawl` endpoint (`CrawlRequest`): the city,
the optional exam list and the candidate limit (default 20).  The source
declares `limit: int`; the embedding uses `Nat`, covering the
non-negative limits the spec quantifies over. -/
structure CrawlRequest where
  city : String
  exams : Option (List String)
  limit : Nat
deriving Repr, DecidableEq

/-- The errors `crawl_and_ingest` raises: HTTP 500 when the database
handle is unavailable, HTTP 400 when the stripped city is empty. -/
inductive CrawlError where
  | databaseNotAvailable
  | cityRequired
deriving Repr, DecidableEq

/-- The response body of a successful `/crawl` call. -/
structure CrawlResult where
  ok : Bool
  created : Nat
  scanned : Nat
deriving Repr, DecidableEq

/-- `crawl_and_ingest(payload)`.  `dbUp` models whether the global `db`
handle is available; `searchFetch q` models the outcome of fetching the
search result page for query `q` (`none` = any exception, so that query
yields no URLs); `pageFetch link` models the outcome of fetching and
parsing the candidate page; `insertFails` models `insert_one` raising.
Returns the response body together with the resulting store. -/
def crawl_and_ingest (dbUp : Bool) (searchFetch : String → Option PageDoc)
    (pageFetch : String → Option PageDoc) (insertFails : String → Bool)
    (store : Store) (payload : CrawlRequest) :
    Except CrawlError (CrawlResult × Store) :=
  if !dbUp then .error .databaseNotAvailable
  else
    let city := pyStrip payload.city
    if city.isEmpty then .error .cityRequired
    else
      let exams := payload.exams.getD []
      let baseTerms := buildBaseTerms city exams
      let search := fun q lim => ddg_search_urls (searchFetch q) lim
      let collected :=
        (collectLoop search payload.limit (max 5 (payload.limit / 2)) [] []
          (baseTerms.take 5)).1
      let extract := fun link => extract_basic_page_info link (pageFetch link)
      let final := ingestLoop city exams insertFails extract
        { created := 0, seen := [], store := store } collected
      .ok ({ ok := true, created := final.created, scanned := collected.length }, final.store)

/-- `create_coaching(item)`: `create_document("coaching", item)` inserts
the validated `Coaching` payload as a new record (the pydantic schema
constrains `status` only to be a string). -/
def create_coaching (store : Store) (item : Coaching) : Store :=
  store ++ [item]

/-- The error of the `/coaching/{id}/status` endpoint: HTTP 400 for a
status outside the allowed list. -/
inductive StatusError where
  | invalidStatus
deriving Repr, DecidableEq

/-- `update_status(coaching_id, payload)`: reject a status outside
`["liked", "disliked", "neutral"]` with HTTP 400, otherwise set the
status of the addressed record (`update_one` by id, modelled by the
record's position; updating an absent id changes nothing, as in
MongoDB). -/
def update_status (store : Store) (i : Nat) (status : String) :
    Except StatusError Store :=
  if !(["liked", "disliked", "neutral"].contains status) then .error .invalidStatus
  else
    match store.get? i with
    | some r => .ok (store.set i { r with status := status })
    | none => .ok store

/-- Whether an endpoint call succeeded (did not raise an HTTP error). -/
def exceptIsOk {ε α : Type} : Except ε α → Bool
  | .ok _ => true
  | .error _ => false

/-- A stub search result of ten distinct-domain URLs, used to exercise
the coordinator's short-circuit across queries. -/
def tenUrls : List String :=
  ["http://u1.com", "http://u2.com", "http://u3.com", "http://u4.com", "http://u5.com",
   "http://u6.com", "http://u7.com", "http://u8.com", "http://u9.com", "http://u10.com"]

/-- A page carrying both a standard meta description and a social-preview
description, used to observe which one the extractor prefers. -/
def bothDescriptionsPage : PageDoc :=
  { title := none
    metas := [{ name := some "description", property := none, content := some "standard" },
              { name := none, property := some "og:description", content := some "social" }]
    anchors := [] }

/-- A search result page with two links on one domain and one on
another, used to exercise domain deduplication. -/
def twoDomainsPage : PageDoc :=
  { title := none
    metas := []
    anchors := [{ href := some "http://a.com/1", resultAnchor := true },
                { href := some "http://a.com/2", resultAnchor := true },
                { href := some "http://b.com/1", resultAnchor := true }] }

/-- A search result page with two distinct-domain candidate links, used
to exercise crawl idempotence. -/
def idemPage : PageDoc :=
  { title := none
    metas := []
    anchors := [{ href := some "http://a.com/x", resultAnchor := true },
                { href := some "http://b.com/y", resultAnchor := true }] }

/-- A crawl request for the idempotence scenario. -/
def idemReq : CrawlRequest := { city := " Pune ", exams := none, limit := 5 }

/-- The record the idempotence scenario's first run inserts for
`http://a.com/x`. -/
def idemDocA : Coaching :=
  { name := "A Coaching", city := "Pune", exams := [], size := none, address := none,
    phone := none, website := some "http://a.com/x", google_maps_url := none, images := [],
    location := none, description := none, status := "neutral" }

/-- The record the idempotence scenario's first run inserts for
`http://b.com/y`. -/
def idemDocB : Coaching :=
  { name := "B Coaching", city := "Pune", exams := [], size := none, address := none,
    phone := none, website := some "http://b.com/y", google_maps_url := none, images := [],
    location := none, description := none, status := "neutral" }

/-- A creation payload whose status is not one of the three dispositions
(the schema only requires a string there). -/
def invalidStatusItem : Coaching :=
  { name := "Alpha Institute", city := "Delhi", exams := [], size := none, address := none,
    phone := none, website := none, google_maps_url := none, images := [], location := none,
    description := none, status := "banana" }

/-- A stored record with the default neutral status. -/
def neutralAlpha : Coaching :=
  { name := "Alpha Institute", city := "Delhi", exams := [], size := none, address := none,
    phone := none, website := none, google_maps_url := none, images := [], location := none,
    description := none, status := "neutral" }

/-- A stored record sharing its website with a crawl candidate, used to
exercise the store-dedup decision. -/
def alphaRecord : Coaching :=
  { name := "ALPHA COACHING", city := "delhi", exams := [], size := none, address := none,
    phone := none, website := some "http://alpha.example/", google_maps_url := none,
    images := [], location := none, description := none, status := "neutral" }

/-! Helper lemmas shared by the claim theorems. -/

/-- Membership and `List.contains` agree on strings. -/
theorem contains_iff_mem {l : List String} {a : String} :
    l.contains a = true ↔ a ∈ l := by
  simp [List.contains, List.elem_iff]

/-- The title step does not touch the `website` field. -/
theorem applyTitle_website (page : PageDoc) (info : Info) :
    (applyTitle page info).website = info.website := by
  unfold applyTitle
  repeat' first | rfl | split | dsimp only

/-- The description step does not touch the `website` field. -/
theorem applyDescription_website (page : PageDoc) (info : Info) :
    (applyDescription page info).website = info.website := by
  unfold applyDescription
  repeat' first | rfl | split | dsimp only

/-- The `og:title` step does not touch the `website` field. -/
theorem applyOgTitle_website (page : PageDoc) (info : Info) :
    (applyOgTitle page info).website = info.website := by
  unfold applyOgTitle
  repeat' first | rfl | split | dsimp only

/-- The telephone step does not touch the `website` field. -/
theorem applyTel_website (page : PageDoc) (info : Info) :
    (applyTel page info).website = info.website := by
  unfold applyTel
  repeat' first | rfl | split | dsimp only

/-- The extractor never changes the `website` field after its preset: it
is the link unless the link contains the substring `google.`. -/
theorem extract_website_eq (link : String) (fetch : Option PageDoc) :
    (extract_basic_page_info link fetch).website
      = if pyIn "google." link then none else some link := by
  cases fetch with
  | none => rfl
  | some page =>
    show (applyTel page (applyOgTitle page (applyDescription page
        (applyTitle page (presetInfo link))))).website = (presetInfo link).website
    rw [applyTel_website, applyOgTitle_website, applyDescription_website, applyTitle_website]

/-- The extractor builds its draft city equal to the crawl city. -/
theorem mkDoc_city (city : String) (exams : List String) (link : String) (info : Info) :
    (mkDoc city exams link info).city = city := rfl

/-- The draft lead always carries status `neutral`. -/
theorem mkDoc_status (city : String) (exams : List String) (link : String) (info : Info) :
    (mkDoc city exams link info).status = "neutral" := rfl

/-- Unfolding of the store-dedup lookup when the draft has no website. -/
theorem storeDedup_eq_of_website_none (store : Store) (city : String) (doc : Coaching)
    (hw : doc.website = none) :
    storeDedup store city doc = findOneByNameCity store doc.name city := by
  unfold storeDedup
  rw [hw]

/-- Unfolding of the store-dedup lookup when the draft has a website. -/
theorem storeDedup_eq_of_website_some (store : Store) (city : String) (doc : Coaching)
    (w : String) (hw : doc.website = some w) :
    storeDedup store city doc =
      match (if !w.isEmpty then findOneByWebsite store w else none) with
      | some r => some r
      | none => findOneByNameCity store doc.name city := by
  unfold storeDedup
  rw [hw]

/-- The store-dedup lookup finds something exactly when the store holds
a record with the draft's (truthy) website, or a record matching the
draft's name and the crawl city case-insensitively. -/
theorem storeDedup_isSome_iff (store : Store) (city : String) (doc : Coaching) :
    (storeDedup store city doc).isSome = true ↔
      ((∃ w, doc.website = some w ∧ ¬w.isEmpty = true ∧ ∃ r ∈ store, r.website = some w) ∨
        ∃ r ∈ store, (ciEq r.name doc.name && ciEq r.city city) = true) := by
  cases hw : doc.website with
  | none =>
    rw [storeDedup_eq_of_website_none store city doc hw]
    rw [findOneByNameCity, List.find?_isSome]
    constructor
    · intro h
      obtain ⟨r, hr, hp⟩ := h
      exact Or.inr ⟨r, hr, hp⟩
    · intro h
      rcases h with ⟨w, hww, _⟩ | ⟨r, hr, hp⟩
      · exact absurd hww (by simp)
      · exact ⟨r, hr, hp⟩
  | some w =>
    rw [storeDedup_eq_of_website_some store city doc w hw]
    by_cases he : w.isEmpty = true
    · rw [he]
      show (findOneByNameCity store doc.name city).isSome = true ↔ _
      rw [findOneByNameCity, List.find?_isSome]
      constructor
      · intro h
        obtain ⟨r, hr, hp⟩ := h
        exact Or.inr ⟨r, hr, hp⟩
      · intro h
        rcases h with ⟨w2, hww, hne, _⟩ | ⟨r, hr, hp⟩
        · cases hww
          exact absurd he hne
        · exact ⟨r, hr, hp⟩
    · rw [Bool.not_eq_true] at he
      rw [he]
      show (match findOneByWebsite store w with
            | some r => some r
            | none => findOneByNameCity store doc.name city).isSome = true ↔ _
      cases hfind : findOneByWebsite store w with
      | some r =>
        simp only [Option.isSome_some, true_iff]
        have hs : (findOneByWebsite store w).isSome = true := by rw [hfind]; rfl
        rw [findOneByWebsite, List.find?_isSome] at hs
        obtain ⟨r2, hr2, hp2⟩ := hs
        exact Or.inl ⟨w, rfl, by simp [he], r2, hr2, by simpa using hp2⟩
      | none =>
        show (findOneByNameCity store doc.name city).isSome = true ↔ _
        rw [findOneByNameCity, List.find?_isSome]
        constructor
        · intro h
          obtain ⟨r, hr, hp⟩ := h
          exact Or.inr ⟨r, hr, hp⟩
        · intro h
          rcases h with ⟨w2, hww, hne, r, hr, hp⟩ | ⟨r, hr, hp⟩
          · cases hww
            have hs : (findOneByWebsite store w).isSome = true := by
              rw [findOneByWebsite, List.find?_isSome]
              exact ⟨r, hr, by simpa using hp⟩
            rw [hfind] at hs
            cases hs
          · exact ⟨r, hr, hp⟩

/-- Store-dedup is monotone: a draft matched against a store is still
matched against any store holding all its records. -/
theorem storeDedup_isSome_mono (store store2 : Store) (city : String) (doc : Coaching)
    (hsub : ∀ r, r ∈ store → r ∈ store2)
    (h : (storeDedup store city doc).isSome = true) :
    (storeDedup store2 city doc).isSome = true := by
  rw [storeDedup_isSome_iff] at h ⊢
  rcases h with ⟨w, hww, hne, r, hr, hp⟩ | ⟨r, hr, hp⟩
  · exact Or.inl ⟨w, hww, hne, r, hsub r hr, hp⟩
  · exact Or.inr ⟨r, hsub r hr, hp⟩

/-- A record already in the store is matched by the dedup lookup for its
own draft (the draft's city being the crawl city). -/
theorem storeDedup_isSome_of_mem (store : Store) (city : String) (doc : Coaching)
    (hmem : doc ∈ store) (hcity : doc.city = city) :
    (storeDedup store city doc).isSome = true := by
  rw [storeDedup_isSome_iff]
  cases hw : doc.website with
  | some w =>
    by_cases he : w.isEmpty = true
    · exact Or.inr ⟨doc, hmem, by simp [ciEq, hcity]⟩
    · exact Or.inl ⟨w, rfl, he, doc, hmem, hw⟩
  | none => exact Or.inr ⟨doc, hmem, by simp [ciEq, hcity]⟩

/-- One-step unfolding of the ingestion loop. -/
theorem ingestLoop_cons (city : String) (exams : List String) (insertFails : String → Bool)
    (extract : String → Info) (st : IngestState) (link : String) (rest : List String) :
    ingestLoop city exams insertFails extract st (link :: rest)
      = ingestLoop city exams insertFails extract
          (ingestStep city exams insertFails extract st link) rest := rfl

/-- An ingestion step on a candidate whose dedup key was already seen in
the batch leaves the state unchanged. -/
theorem ingestStep_of_seen (city : String) (exams : List String) (insertFails : String → Bool)
    (extract : String → Info) (st : IngestState) (link : String)
    (h : st.seen.contains (dedupKey link (extract link)) = true) :
    ingestStep city exams insertFails extract st link = st := by
  have hm : dedupKey link (extract link) ∈ st.seen := contains_iff_mem.mp h
  unfold ingestStep
  simp [hm]

/-- An ingestion step on an unseen candidate whose draft matches the
store only records the dedup key. -/
theorem ingestStep_of_found (city : String) (exams : List String) (insertFails : String → Bool)
    (extract : String → Info) (st : IngestState) (link : String)
    (h : st.seen.contains (dedupKey link (extract link)) = false)
    (hdd : (storeDedup st.store city (mkDoc city exams link (extract link))).isSome = true) :
    ingestStep city exams insertFails extract st link
      = { st with seen := st.seen ++ [dedupKey link (extract link)] } := by
  have hm : dedupKey link (extract link) ∉ st.seen := by
    intro hmem
    rw [contains_iff_mem.mpr hmem] at h
    cases h
  obtain ⟨r, hr⟩ := Option.isSome_iff_exists.mp hdd
  unfold ingestStep
  simp [hm, hr]

/-- An ingestion step on an unseen, unmatched candidate with a working
insert appends the draft to the store and counts it. -/
theorem ingestStep_of_inserted (city : String) (exams : List String)
    (insertFails : String → Bool) (extract : String → Info) (st : IngestState) (link : String)
    (h : st.seen.contains (dedupKey link (extract link)) = false)
    (hdd : storeDedup st.store city (mkDoc city exams link (extract link)) = none)
    (hins : insertFails link = false) :
    ingestStep city exams insertFails extract st link
      = { created := st.created + 1
          seen := st.seen ++ [dedupKey link (extract link)]
          store := st.store ++ [mkDoc city exams link (extract link)] } := by
  have hm : dedupKey link (extract link) ∉ st.seen := by
    intro hmem
    rw [contains_iff_mem.mpr hmem] at h
    cases h
  unfold ingestStep
  simp [hm, hdd, hins]

/-- Each ingestion step either keeps the store or appends the candidate's
draft to it. -/
theorem ingestStep_store_cases (city : String) (exams : List String)
    (insertFails : String → Bool) (extract : String → Info) (st : IngestState) (link : String) :
    (ingestStep city exams insertFails extract st link).store = st.store
      ∨ (ingestStep city exams insertFails extract st link).store
          = st.store ++ [mkDoc city exams link (extract link)] := by
  unfold ingestStep
  repeat' first | exact Or.inl rfl | exact Or.inr rfl | split | dsimp only

/-- The ingestion loop never removes records from the store. -/
theorem ingestLoop_store_mono (city : String) (exams : List String)
    (insertFails : String → Bool) (extract : String → Info) :
    ∀ (links : List String) (st : IngestState) (r : Coaching),
      r ∈ st.store → r ∈ (ingestLoop city exams insertFails extract st links).store := by
  intro links
  induction links with
  | nil => intro st r hr; exact hr
  | cons link rest ih =>
    intro st r hr
    rw [ingestLoop_cons]
    refine ih _ r ?_
    rcases ingestStep_store_cases city exams insertFails extract st link with hc | hc
    · rw [hc]; exact hr
    · rw [hc]; exact List.mem_append_left _ hr

/-- Replaying the ingestion loop (with working inserts) against any store
that holds every record of a first run's final store creates nothing: each
candidate is dropped by the in-batch key or matched against the store. -/
theorem ingestLoop_created_of_superset (city : String) (exams : List String)
    (extract : String → Info) :
    ∀ (links seen : List String) (c1 c2 : Nat) (store store2 : Store),
      (∀ r, r ∈ (ingestLoop city exams (fun _ => false) extract
          { created := c1, seen := seen, store := store } links).store → r ∈ store2) →
      (ingestLoop city exams (fun _ => false) extract
          { created := c2, seen := seen, store := store2 } links).created = c2 := by
  intro links
  induction links with
  | nil => intro seen c1 c2 store store2 h; rfl
  | cons link rest ih =>
    intro seen c1 c2 store store2 h
    rw [ingestLoop_cons] at h ⊢
    by_cases hseen : seen.contains (dedupKey link (extract link)) = true
    · rw [ingestStep_of_seen city exams (fun _ => false) extract _ link hseen] at h ⊢
      exact ih seen c1 c2 store store2 h
    · rw [Bool.not_eq_true] at hseen
      have hsub : ∀ r, r ∈ store → r ∈ store2 := by
        intro r hr
        exact h r (ingestLoop_store_mono city exams (fun _ => false) extract rest _ r
          (by rcases ingestStep_store_cases city exams (fun _ => false) extract
                { created := c1, seen := seen, store := store } link with hc | hc
              · rw [hc]; exact hr
              · rw [hc]; exact List.mem_append_left _ hr))
      cases hdd : storeDedup store city (mkDoc city exams link (extract link)) with
      | some r =>
        rw [ingestStep_of_found city exams (fun _ => false) extract _ link hseen
          (by rw [hdd]; rfl)] at h
        have hdd2 : (storeDedup store2 city (mkDoc city exams link (extract link))).isSome
            = true :=
          storeDedup_isSome_mono store store2 city _ hsub (by rw [hdd]; rfl)
        rw [ingestStep_of_found city exams (fun _ => false) extract _ link hseen hdd2]
        exact ih (seen ++ [dedupKey link (extract link)]) c1 c2 store store2 h
      | none =>
        rw [ingestStep_of_inserted city exams (fun _ => false) extract _ link hseen hdd rfl]
          at h
        have hmem2 : mkDoc city exams link (extract link) ∈ store2 := by
          refine h _ (ingestLoop_store_mono city exams (fun _ => false) extract rest _ _ ?_)
          exact List.mem_append_right _ (List.mem_singleton.mpr rfl)
        have hdd2 : (storeDedup store2 city (mkDoc city exams link (extract link))).isSome
            = true :=
          storeDedup_isSome_of_mem store2 city _ hmem2 (mkDoc_city city exams link _)
        rw [ingestStep_of_found city exams (fun _ => false) extract _ link hseen hdd2]
        exact ih (seen ++ [dedupKey link (extract link)]) (c1 + 1) c2
          (store ++ [mkDoc city exams link (extract link)]) store2 h

/-- The ingestion loop only ever adds records with status `neutral`:
any property of record statuses that holds of the initial store and of
`neutral` still holds afterwards. -/
theorem ingestLoop_status_invariant (city : String) (exams : List String)
    (insertFails : String → Bool) (extract : String → Info)
    (allowed : List String) (hneutral : "neutral" ∈ allowed) :
    ∀ (links : List String) (st : IngestState),
      (∀ r ∈ st.store, r.status ∈ allowed) →
      ∀ r ∈ (ingestLoop city exams insertFails extract st links).store, r.status ∈ allowed := by
  intro links
  induction links with
  | nil => intro st h r hr; exact h r hr
  | cons link rest ih =>
    intro st h r hr
    rw [ingestLoop_cons] at hr
    refine ih _ ?_ r hr
    intro r2 hr2
    rcases ingestStep_store_cases city exams insertFails extract st link with hc | hc
    · rw [hc] at hr2; exact h r2 hr2
    · rw [hc] at hr2
      rcases List.mem_append.mp hr2 with hold | hnew
      · exact h r2 hold
      · rw [List.mem_singleton.mp hnew, mkDoc_status]
        exact hneutral

/-- The inner URL-merging loop never grows the collected list past the
limit when it enters below it. -/
theorem mergeUrls_length_le (limit : Nat) :
    ∀ (urls collected : List String), collected.length < limit →
      (mergeUrls limit collected urls).length ≤ limit := by
  intro urls
  induction urls with
  | nil => intro collected h; exact Nat.le_of_lt h
  | cons u rest ih =>
    intro collected h
    show (let c2 := if collected.contains u then collected else collected ++ [u];
          if limit ≤ c2.length then c2 else mergeUrls limit c2 rest).length ≤ limit
    by_cases hc : collected.contains u = true
    · rw [hc]
      simp only [if_true]
      by_cases hl : limit ≤ collected.length
      · rw [if_pos hl]; exact Nat.le_of_lt h
      · rw [if_neg hl]; exact ih collected h
    · rw [Bool.not_eq_true] at hc
      rw [hc]
      simp only [Bool.false_eq_true, if_false]
      have hlen : (collected ++ [u]).length ≤ limit := by
        rw [List.length_append, List.length_singleton]
        exact h
      by_cases hl : limit ≤ (collected ++ [u]).length
      · rw [if_pos hl]; exact hlen
      · rw [if_neg hl]
        exact ih (collected ++ [u]) (Nat.lt_of_not_le hl)

/-- The outer query loop keeps the collected list within the limit when
it enters below it. -/
theorem collectLoop_length_le (search : String → Nat → List String) (limit perLim : Nat) :
    ∀ (qs collected : List String) (issued : List (String × Nat)),
      collected.length < limit →
      ((collectLoop search limit perLim collected issued qs).1).length ≤ limit := by
  intro qs
  induction qs with
  | nil => intro collected issued h; exact Nat.le_of_lt h
  | cons q rest ih =>
    intro collected issued h
    show ((let urls := search q perLim;
           let issued2 := issued ++ [(q, perLim)];
           let collected2 := mergeUrls limit collected urls;
           if limit ≤ collected2.length then (collected2, issued2)
           else collectLoop search limit perLim collected2 issued2 rest).1).length ≤ limit
    have hmerge := mergeUrls_length_le limit (search q perLim) collected h
    by_cases hl : limit ≤ (mergeUrls limit collected (search q perLim)).length
    · rw [if_pos hl]; exact hmerge
    · rw [if_neg hl]
      exact ih (mergeUrls limit collected (search q perLim)) (issued ++ [(q, perLim)])
        (Nat.lt_of_not_le hl)

/-- Every query the outer loop issues either was already in the issued
log or is one of the supplied queries. -/
theorem collectLoop_issued_mem (search : String → Nat → List String) (limit perLim : Nat) :
    ∀ (qs collected : List String) (issued : List (String × Nat)) (p : String × Nat),
      p ∈ (collectLoop search limit perLim collected issued qs).2 →
      p ∈ issued ∨ p.1 ∈ qs := by
  intro qs
  induction qs with
  | nil => intro collected issued p hp; exact Or.inl hp
  | cons q rest ih =>
    intro collected issued p hp
    show p ∈ issued ∨ p.1 ∈ q :: rest
    have hp2 : p ∈ (let urls := search q perLim;
        let issued2 := issued ++ [(q, perLim)];
        let collected2 := mergeUrls limit collected urls;
        if limit ≤ collected2.length then (collected2, issued2)
        else collectLoop search limit perLim collected2 issued2 rest).2 := hp
    by_cases hl : limit ≤ (mergeUrls limit collected (search q perLim)).length
    · rw [if_pos hl] at hp2
      rcases List.mem_append.mp hp2 with hold | hnew
      · exact Or.inl hold
      · rw [List.mem_singleton.mp hnew]
        exact Or.inr (List.mem_cons_self q rest)
    · rw [if_neg hl] at hp2
      rcases ih (mergeUrls limit collected (search q perLim)) (issued ++ [(q, perLim)]) p hp2
        with hold | hq
      · rcases List.mem_append.mp hold with h1 | h2
        · exact Or.inl h1
        · rw [List.mem_singleton.mp h2]
          exact Or.inr (List.mem_cons_self q rest)
      · exact Or.inr (List.mem_cons_of_mem q hq)

/-- One-step unfolding of the domain-deduplication loop. -/
theorem dedupDomains_cons (limit : Nat) (seen uniq : List String) (l : String)
    (rest : List String) :
    dedupDomains limit seen uniq (l :: rest)
      = (let seen2 := if seen.contains (netloc l) then seen else seen ++ [netloc l]
         let uniq2 := if seen.contains (netloc l) then uniq else uniq ++ [l]
         if limit ≤ uniq2.length then uniq2
         else dedupDomains limit seen2 uniq2 rest) := rfl

/-- Main invariant of the domain-deduplication loop: starting from a
partial pass whose `seen` set holds exactly the domains of the consumed
prefix and whose kept list `uniq` is a domain-unique, first-occurrence
subsequence, the loop returns a list of at most `limit` links with
pairwise distinct domains, in original order, each being the first link
of its domain. -/
theorem dedupDomains_invariant (limit : Nat) :
    ∀ (links consumed seen uniq : List String),
      (∀ d, d ∈ seen ↔ ∃ c ∈ consumed, netloc c = d) →
      uniq.Sublist consumed →
      ((uniq.map netloc).Nodup) →
      (∀ r ∈ uniq, netloc r ∈ seen) →
      uniq.length < limit →
      (∀ r ∈ uniq, (consumed ++ links).find? (fun x => netloc x == netloc r) = some r) →
      (dedupDomains limit seen uniq links).length ≤ limit
      ∧ ((dedupDomains limit seen uniq links).map netloc).Nodup
      ∧ (dedupDomains limit seen uniq links).Sublist (consumed ++ links)
      ∧ ∀ r ∈ dedupDomains limit seen uniq links,
          (consumed ++ links).find? (fun x => netloc x == netloc r) = some r := by
  intro links
  induction links with
  | nil =>
    intro consumed seen uniq hchar hsub hnodup hseen hlen hfind
    simp only [dedupDomains, List.append_nil]
    simp only [List.append_nil] at hfind
    exact ⟨Nat.le_of_lt hlen, hnodup, hsub, hfind⟩
  | cons l rest ih =>
    intro consumed seen uniq hchar hsub hnodup hseen hlen hfind
    have hassoc : (consumed ++ [l]) ++ rest = consumed ++ l :: rest := by
      rw [List.append_assoc, List.singleton_append]
    rw [dedupDomains_cons]
    by_cases hc : seen.contains (netloc l) = true
    · have hmem : netloc l ∈ seen := contains_iff_mem.mp hc
      rw [hc]
      simp only [if_true]
      have hlt : ¬limit ≤ uniq.length := Nat.not_le_of_lt hlen
      rw [if_neg hlt]
      have hchar2 : ∀ d, d ∈ seen ↔ ∃ c ∈ consumed ++ [l], netloc c = d := by
        intro d
        constructor
        · intro hd
          obtain ⟨c, hcmem, hcd⟩ := (hchar d).mp hd
          exact ⟨c, List.mem_append_left _ hcmem, hcd⟩
        · intro hd
          obtain ⟨c, hcmem, hcd⟩ := hd
          rcases List.mem_append.mp hcmem with h1 | h2
          · exact (hchar d).mpr ⟨c, h1, hcd⟩
          · rw [List.mem_singleton.mp h2] at hcd
            rw [← hcd]
            exact hmem
      have hres := ih (consumed ++ [l]) seen uniq hchar2
        (hsub.trans (List.sublist_append_left consumed [l])) hnodup hseen hlen
        (by intro r hr; rw [hassoc]; exact hfind r hr)
      rw [hassoc] at hres
      exact hres
    · rw [Bool.not_eq_true] at hc
      have hnotmem : netloc l ∉ seen := by
        intro hm
        rw [contains_iff_mem.mpr hm] at hc
        cases hc
      rw [hc]
      simp only [Bool.false_eq_true, if_false]
      have hnodup2 : ((uniq ++ [l]).map netloc).Nodup := by
        rw [List.map_append, List.map_singleton]
        rw [List.nodup_append]
        refine ⟨hnodup, List.nodup_singleton _, ?_⟩
        intro d hd hdl
        rw [List.mem_singleton.mp hdl] at hd
        obtain ⟨r, hr, hrd⟩ := List.mem_map.mp hd
        rw [← hrd] at hnotmem
        exact hnotmem (hseen r hr)
      have hfind2 : ∀ r ∈ uniq ++ [l],
          (consumed ++ l :: rest).find? (fun x => netloc x == netloc r) = some r := by
        intro r hr
        rcases List.mem_append.mp hr with hold | hnew
        · exact hfind r hold
        · rw [List.mem_singleton.mp hnew]
          rw [List.find?_append]
          have hcons : (consumed.find? (fun x => netloc x == netloc l)) = none := by
            rw [List.find?_eq_none]
            intro c hcmem hbeq
            have : netloc c = netloc l := by simpa using hbeq
            exact hnotmem ((hchar (netloc l)).mpr ⟨c, hcmem, this⟩)
          rw [hcons, Option.none_or]
          exact List.find?_cons_of_pos _ (by simp)
      have hsub2 : (uniq ++ [l]).Sublist (consumed ++ [l]) :=
        hsub.append (List.Sublist.refl [l])
      by_cases hl2 : limit ≤ (uniq ++ [l]).length
      · rw [if_pos hl2]
        have hlen2 : (uniq ++ [l]).length ≤ limit := by
          rw [List.length_append, List.length_singleton]
          exact hlen
        refine ⟨hlen2, hnodup2, ?_, hfind2⟩
        refine hsub2.trans ?_
        exact (List.Sublist.refl consumed).append ((List.nil_sublist rest).cons₂ l)
      · rw [if_neg hl2]
        have hchar2 : ∀ d, d ∈ seen ++ [netloc l] ↔ ∃ c ∈ consumed ++ [l], netloc c = d := by
          intro d
          constructor
          · intro hd
            rcases List.mem_append.mp hd with h1 | h2
            · obtain ⟨c, hcmem, hcd⟩ := (hchar d).mp h1
              exact ⟨c, List.mem_append_left _ hcmem, hcd⟩
            · exact ⟨l, List.mem_append_right _ (List.mem_singleton.mpr rfl),
                (List.mem_singleton.mp h2).symm⟩
          · intro hd
            obtain ⟨c, hcmem, hcd⟩ := hd
            rcases List.mem_append.mp hcmem with h1 | h2
            · exact List.mem_append_left _ ((hchar d).mpr ⟨c, h1, hcd⟩)
            · rw [List.mem_singleton.mp h2] at hcd
              exact List.mem_append_right _ (List.mem_singleton.mpr hcd.symm)
        have hseen2 : ∀ r ∈ uniq ++ [l], netloc r ∈ seen ++ [netloc l] := by
          intro r hr
          rcases List.mem_append.mp hr with hold | hnew
          · exact List.mem_append_left _ (hseen r hold)
          · rw [List.mem_singleton.mp hnew]
            exact List.mem_append_right _ (List.mem_singleton.mpr rfl)
        have hres := ih (consumed ++ [l]) (seen ++ [netloc l]) (uniq ++ [l]) hchar2 hsub2
          hnodup2 hseen2 (Nat.lt_of_not_le hl2)
          (by intro r hr; rw [hassoc]; exact hfind2 r hr)
        rw [hassoc] at hres
        exact hres

/-- The crawl endpoint with an unavailable store raises HTTP 500 before
doing anything. -/
theorem crawl_and_ingest_db_error (searchFetch pageFetch : String → Option PageDoc)
    (insertFails : String → Bool) (store : Store) (payload : CrawlRequest) :
    crawl_and_ingest false searchFetch pageFetch insertFails store payload
      = .error .databaseNotAvailable := rfl

/-- The crawl endpoint with a whitespace-only city raises HTTP 400. -/
theorem crawl_and_ingest_city_error (searchFetch pageFetch : String → Option PageDoc)
    (insertFails : String → Bool) (store : Store) (payload : CrawlRequest)
    (hcity : (pyStrip payload.city).isEmpty = true) :
    crawl_and_ingest true searchFetch pageFetch insertFails store payload
      = .error .cityRequired := by
  unfold crawl_and_ingest
  simp [hcity]

/-- Unfolding of a successful crawl: the pipeline runs the query loop and
then the ingestion loop, and reports the counts. -/
theorem crawl_and_ingest_ok (searchFetch pageFetch : String → Option PageDoc)
    (insertFails : String → Bool) (store : Store) (payload : CrawlRequest)
    (hcity : (pyStrip payload.city).isEmpty = false) :
    crawl_and_ingest true searchFetch pageFetch insertFails store payload
      = .ok ({ ok := true
               created := (ingestLoop (pyStrip payload.city) (payload.exams.getD []) insertFails
                   (fun link => extract_basic_page_info link (pageFetch link))
                   { created := 0, seen := [], store := store }
                   (collectLoop (fun q lim => ddg_search_urls (searchFetch q) lim)
                     payload.limit (max 5 (payload.limit / 2)) [] []
                     ((buildBaseTerms (pyStrip payload.city) (payload.exams.getD [])).take 5)).1).created
               scanned := ((collectLoop (fun q lim => ddg_search_urls (searchFetch q) lim)
                   payload.limit (max 5 (payload.limit / 2)) [] []
                   ((buildBaseTerms (pyStrip payload.city) (payload.exams.getD [])).take 5)).1).length },
          (ingestLoop (pyStrip payload.city) (payload.exams.getD []) insertFails
              (fun link => extract_basic_page_info link (pageFetch link))
              { created := 0, seen := [], store := store }
              (collectLoop (fun q lim => ddg_search_urls (searchFetch q) lim)
                payload.limit (max 5 (payload.limit / 2)) [] []
                ((buildBaseTerms (pyStrip payload.city) (payload.exams.getD [])).take 5)).1).store) := by
  unfold crawl_and_ingest
  simp [hcity]

/-- The title step does not touch the `description` field. -/
theorem applyTitle_description (page : PageDoc) (info : Info) :
    (applyTitle page info).description = info.description := by
  unfold applyTitle
  repeat' first | rfl | split | dsimp only

/-- The `og:title` step does not touch the `description` field. -/
theorem applyOgTitle_description (page : PageDoc) (info : Info) :
    (applyOgTitle page info).description = info.description := by
  unfold applyOgTitle
  repeat' first | rfl | split | dsimp only

/-- The telephone step does not touch the `description` field. -/
theorem applyTel_description (page : PageDoc) (info : Info) :
    (applyTel page info).description = info.description := by
  unfold applyTel
  repeat' first | rfl | split | dsimp only

/-- The description of an extracted page is fully decided by the
description step applied to the preset record. -/
theorem extract_description_eq (link : String) (page : PageDoc) :
    (extract_basic_page_info link (some page)).description
      = (applyDescription page (applyTitle page (presetInfo link))).description := by
  show (applyTel page (applyOgTitle page (applyDescription page
      (applyTitle page (presetInfo link))))).description = _
  rw [applyTel_description, applyOgTitle_description]

/-- The description step leaves the description alone or writes a
300-character truncation. -/
theorem applyDescription_cases (page : PageDoc) (info : Info) :
    (applyDescription page info).description = info.description
      ∨ ∃ c : String, (applyDescription page info).description = some (pyTake c 300) := by
  unfold applyDescription
  cases hfind : (findMetaNamed page.metas "description").orElse
      (fun _ => findMetaProp page.metas "og:description") with
  | none => exact Or.inl rfl
  | some m =>
    dsimp only
    cases hc : m.content with
    | none => exact Or.inl rfl
    | some c =>
      dsimp only
      by_cases he : c.isEmpty = true
      · rw [he]
        exact Or.inl rfl
      · rw [Bool.not_eq_true] at he
        rw [he]
        exact Or.inr ⟨c, rfl⟩

/-- A truncation has length at most the requested count. -/
theorem pyTake_length_le (s : String) (n : Nat) : (pyTake s n).length ≤ n := by
  show (s.data.take n).length ≤ n
  exact List.length_take_le n s.data

/-- The removal pass steps over a character that does not open a `www.`
occurrence. -/
theorem removeWWW_cons (c : Char) (rest : List Char)
    (hne : ∀ r2 : List Char, c = 'w' → rest = 'w' :: 'w' :: '.' :: r2 → False) :
    removeWWW (c :: rest) = c :: removeWWW rest := by
  rw [removeWWW.eq_def]
  split
  · rename_i x r2 heq
    injection heq with h1 h2
    exact (hne r2 h1 h2).elim
  · rename_i x c2 r2 hne2 heq
    injection heq with h1 h2
    subst h1
    subst h2
    rfl
  · rename_i x heq
    exact absurd heq (by simp)

/-- The description step writes the truncated content of the tag the
lookup chain found. -/
theorem applyDescription_of_found (page : PageDoc) (info : Info) (m : MetaTag) (c : String)
    (hm : (findMetaNamed page.metas "description").orElse
        (fun _ => findMetaProp page.metas "og:description") = some m)
    (hc : m.content = some c) (he : c.isEmpty = false) :
    (applyDescription page info).description = some (pyTake c 300) := by
  unfold applyDescription
  rw [hm]
  dsimp only
  rw [hc]
  dsimp only
  rw [he]
  rfl

/-- The description step leaves the record alone when the lookup chain
found no tag. -/
theorem applyDescription_of_none (page : PageDoc) (info : Info)
    (hm : (findMetaNamed page.metas "description").orElse
        (fun _ => findMetaProp page.metas "og:description") = none) :
    (applyDescription page info).description = info.description := by
  unfold applyDescription
  rw [hm]

/-! The claim theorems. -/

/-- C9: the query builder produces the three fixed city templates
followed by two templates per exam in order; for city Delhi and exams
[NEET] it yields exactly those 5 queries, and the coordinator issues
only queries among the first 5 of this sequence. -/
theorem claim_query_builder :
    buildBaseTerms "Delhi" ["NEET"]
      = ["coaching institute Delhi", "tuition classes Delhi", "test prep coaching Delhi",
         "NEET coaching Delhi", "NEET classes Delhi"]
    ∧ (∀ (city : String) (exams : List String),
        (buildBaseTerms city exams).length = 3 + 2 * exams.length)
    ∧ (∀ (search : String → Nat → List String) (limit : Nat) (city : String)
        (exams : List String) (p : String × Nat),
        p ∈ (collectLoop search limit (max 5 (limit / 2)) [] []
            ((buildBaseTerms city exams).take 5)).2 →
        p.1 ∈ (buildBaseTerms city exams).take 5) := by
  refine ⟨rfl, ?_, ?_⟩
  · intro city exams
    have hfl : ∀ rest : List String,
        (rest.flatMap fun ex => [ex ++ " coaching " ++ city, ex ++ " classes " ++ city]).length
          = 2 * rest.length := by
      intro rest
      induction rest with
      | nil => rfl
      | cons e r ih =>
        rw [List.flatMap_cons, List.length_append, ih, List.length_cons]
        show 2 + 2 * r.length = 2 * (r.length + 1)
        omega
    unfold buildBaseTerms
    rw [List.length_append, hfl]
    rfl
  · intro search limit city exams p hp
    rcases collectLoop_issued_mem search limit (max 5 (limit / 2))
        ((buildBaseTerms city exams).take 5) [] [] p hp with h | h
    · cases h
    · exact h

/-- C9 witness: the first base query for Delhi/NEET is among the first
five queries, via an issued-log membership of a concrete run. -/
theorem claim_query_builder_witness :
    (("coaching institute Delhi", 5) : String × Nat).1
      ∈ (buildBaseTerms "Delhi" ["NEET"]).take 5 :=
  claim_query_builder.2.2 (fun _ _ => []) 3 "Delhi" ["NEET"]
    ("coaching institute Delhi", 5) (by decide)

/-- C8: the coordinator passes each query the per-query limit
max(5, limit/2), never collects more than `limit` candidates, and with
limit 3 and a first query answering ten URLs it collects exactly the
first three URLs and issues no further query. -/
theorem claim_short_circuit :
    (∀ (search : String → Nat → List String) (limit : Nat) (qs : List String),
        1 ≤ limit →
        ((collectLoop search limit (max 5 (limit / 2)) [] [] qs).1).length ≤ limit)
    ∧ collectLoop (fun _ _ => tenUrls) 3 (max 5 (3 / 2)) [] []
        ((buildBaseTerms "Delhi" ["NEET"]).take 5)
      = (["http://u1.com", "http://u2.com", "http://u3.com"],
         [("coaching institute Delhi", 5)]) := by
  constructor
  · intro search limit qs h
    exact collectLoop_length_le search limit (max 5 (limit / 2)) qs [] [] h
  · rfl

/-- C8 witness: the general bound at search limit one. -/
theorem claim_short_circuit_witness :
    ((collectLoop (fun _ _ => tenUrls) 1 (max 5 (1 / 2)) [] [] ["q"]).1).length ≤ 1 :=
  claim_short_circuit.1 (fun _ _ => tenUrls) 1 ["q"] (by decide)

/-- C6: a crawl succeeds exactly when the store is available and the
stripped city is non-empty — per-candidate failures (modelled by the
`none` fetch outcomes and the failing-insert oracle) never surface; a
failed search fetch yields the empty URL list and a failed page fetch
yields the preset record. -/
theorem claim_error_policy :
    (∀ (dbUp : Bool) (searchFetch pageFetch : String → Option PageDoc)
        (insertFails : String → Bool) (store : Store) (payload : CrawlRequest),
        exceptIsOk (crawl_and_ingest dbUp searchFetch pageFetch insertFails store payload)
            = true
          ↔ dbUp = true ∧ (pyStrip payload.city).isEmpty = false)
    ∧ (∀ limit : Nat, ddg_search_urls none limit = [])
    ∧ (∀ link : String, extract_basic_page_info link none = presetInfo link) := by
  refine ⟨?_, fun _ => rfl, fun _ => rfl⟩
  intro dbUp searchFetch pageFetch insertFails store payload
  cases dbUp with
  | false =>
    rw [crawl_and_ingest_db_error]
    simp [exceptIsOk]
  | true =>
    by_cases hcity : (pyStrip payload.city).isEmpty = true
    · rw [crawl_and_ingest_city_error searchFetch pageFetch insertFails store payload hcity]
      simp [exceptIsOk, hcity]
    · rw [Bool.not_eq_true] at hcity
      rw [crawl_and_ingest_ok searchFetch pageFetch insertFails store payload hcity]
      simp [exceptIsOk, hcity]

/-- C4 counterexample: for a URL on the search engine's own domain
(duckduckgo.com) the extractor keeps the URL as website instead of
nulling it, while a URL merely containing the substring `google.` gets a
null website although its domain is not the search engine's. -/
theorem claim_website_null_counterexample :
    netloc "https://duckduckgo.com/html/?q=coaching" = "duckduckgo.com"
    ∧ (extract_basic_page_info "https://duckduckgo.com/html/?q=coaching" none).website
        = some "https://duckduckgo.com/html/?q=coaching"
    ∧ (extract_basic_page_info "http://mygoogle.example/page" none).website = none
    ∧ netloc "http://mygoogle.example/page" ≠ "duckduckgo.com" := by
  refine ⟨rfl, rfl, rfl, by decide⟩

/-- C4 amended: website is the input URL itself unless the URL contains
the substring `google.` anywhere, in which case it is null — the test is
a substring check against `google.`, not a comparison with the search
engine's domain. -/
theorem claim_website_null_amended (link : String) (fetch : Option PageDoc) :
    (extract_basic_page_info link fetch).website
      = if pyIn "google." link then none else some link :=
  extract_website_eq link fetch

/-- C10 counterexample: for a domain with a non-leading `www.` the
synthesized name removes that interior occurrence (Python
`replace('www.', '')` removes every occurrence), instead of keeping the
first label `abcwww` as stripping only a leading `www.` would. -/
theorem claim_synth_name_counterexample :
    (mkDoc "Delhi" [] "http://abcwww.def.com/page"
        (extract_basic_page_info "http://abcwww.def.com/page" none)).name
      = "Abcdef Coaching"
    ∧ "Abcdef Coaching" ≠ "Abcwww Coaching" := by
  refine ⟨rfl, by decide⟩

/-- C10 amended: when the extracted name is absent the draft name is
synthesized by removing every occurrence of `www.` from the URL's
domain, taking the first dot-separated label of the result, Python
title-casing it and appending " Coaching"; stripping only a leading
`www.` coincides with this exactly when the rest of the domain has no
further `www.` occurrence. -/
theorem claim_synth_name_amended :
    (∀ (city : String) (exams : List String) (link : String) (info : Info),
        truthy info.name = false → (mkDoc city exams link info).name = synthName link)
    ∧ (∀ s : List Char, listHasSub "www.".data s = false → removeWWW s = s)
    ∧ (∀ s : List Char, removeWWW ('w' :: 'w' :: 'w' :: '.' :: s) = removeWWW s)
    ∧ synthName "http://www.alpha-academy.com/x" = "Alpha-Academy Coaching"
    ∧ synthName "http://abcwww.def.com/page" = "Abcdef Coaching" := by
  refine ⟨?_, ?_, fun s => rfl, rfl, rfl⟩
  · intro city exams link info h
    unfold mkDoc
    rw [h]
    simp
  · intro s h
    induction s using removeWWW.induct with
    | case1 rest ih =>
      rw [listHasSub] at h
      simp [List.isPrefixOf] at h
    | case2 c rest hne ih =>
      rw [listHasSub, Bool.or_eq_false_iff] at h
      rw [removeWWW_cons c rest hne, ih h.2]
    | case3 => rfl

/-- C10 witness: a string without `www.` is left unchanged by the
removal pass. -/
theorem claim_synth_name_amended_witness :
    removeWWW "abc.com".data = "abc.com".data :=
  claim_synth_name_amended.2.1 "abc.com".data (by decide)

/-- C3 counterexample: on a page carrying both a standard meta
description (`standard`) and a social-preview description (`social`) the
extractor keeps the standard one — the social-preview tag is present yet
not preferred, contradicting the claimed preference order. -/
theorem claim_description_pref_counterexample :
    findMetaProp bothDescriptionsPage.metas "og:description"
      = some { name := none, property := some "og:description", content := some "social" }
    ∧ (extract_basic_page_info "http://site.example/a" (some bothDescriptionsPage)).description
        = some "standard"
    ∧ some "standard" ≠ some (pyTake "social" 300) := by
  refine ⟨rfl, rfl, by decide⟩

/-- C3 amended: the extractor prefers the standard meta description and
falls back to the social-preview description only when no standard meta
description tag exists; the chosen truthy content is truncated to at
most 300 characters, and when neither tag exists the description stays
null. -/
theorem claim_description_pref_amended (link : String) (page : PageDoc) :
    (∀ s : String, (extract_basic_page_info link (some page)).description = some s →
        s.length ≤ 300)
    ∧ (∀ (m : MetaTag) (c : String), findMetaNamed page.metas "description" = some m →
        m.content = some c → c.isEmpty = false →
        (extract_basic_page_info link (some page)).description = some (pyTake c 300))
    ∧ (findMetaNamed page.metas "description" = none →
        ∀ (m : MetaTag) (c : String), findMetaProp page.metas "og:description" = some m →
        m.content = some c → c.isEmpty = false →
        (extract_basic_page_info link (some page)).description = some (pyTake c 300))
    ∧ (findMetaNamed page.metas "description" = none →
        findMetaProp page.metas "og:description" = none →
        (extract_basic_page_info link (some page)).description = none) := by
  refine ⟨?_, ?_, ?_, ?_⟩
  · intro s hs
    rw [extract_description_eq] at hs
    rcases applyDescription_cases page (applyTitle page (presetInfo link)) with hc | ⟨c, hc⟩
    · rw [hc, applyTitle_description] at hs
      simp [presetInfo] at hs
    · rw [hc] at hs
      injection hs with hs
      rw [← hs]
      exact pyTake_length_le c 300
  · intro m c hm hc he
    rw [extract_description_eq]
    refine applyDescription_of_found page _ m c ?_ hc he
    rw [hm]
    rfl
  · intro hn m c hm hc he
    rw [extract_description_eq]
    refine applyDescription_of_found page _ m c ?_ hc he
    rw [hn]
    exact hm
  · intro hn hp
    rw [extract_description_eq,
      applyDescription_of_none page _ (by rw [hn]; exact hp), applyTitle_description]
    rfl

/-- C3 witness: on the two-description page the standard meta
description is the one extracted, truncated. -/
theorem claim_description_pref_amended_witness :
    (extract_basic_page_info "http://site.example/b" (some bothDescriptionsPage)).description
      = some (pyTake "standard" 300) :=
  (claim_description_pref_amended "http://site.example/b" bothDescriptionsPage).2.1
    { name := some "description", property := none, content := some "standard" } "standard"
    rfl rfl rfl

/-- C5 counterexample: the creation endpoint stores the client-supplied
status string unvalidated, so a record with status outside the three
dispositions can be stored through the public interface. -/
theorem claim_status_enum_counterexample :
    ∃ r, r ∈ create_coaching [] invalidStatusItem
      ∧ r.status ∉ (["neutral", "liked", "disliked"] : List String) := by
  refine ⟨invalidStatusItem, List.mem_singleton.mpr rfl, by decide⟩

/-- C5 amended: the status-enum invariant is preserved by the status
update endpoint (which rejects other strings with HTTP 400) and by crawl
ingestion (which only inserts status `neutral`), but creation accepts
any status string, so the invariant holds on those two paths only. -/
theorem claim_status_enum_amended (store : Store)
    (hinv : ∀ r ∈ store, r.status ∈ (["neutral", "liked", "disliked"] : List String)) :
    (∀ (i : Nat) (status : String) (s2 : Store),
        update_status store i status = .ok s2 →
        ∀ r ∈ s2, r.status ∈ (["neutral", "liked", "disliked"] : List String))
    ∧ (∀ (dbUp : Bool) (searchFetch pageFetch : String → Option PageDoc)
        (insertFails : String → Bool) (payload : CrawlRequest) (res : CrawlResult)
        (s2 : Store),
        crawl_and_ingest dbUp searchFetch pageFetch insertFails store payload
          = .ok (res, s2) →
        ∀ r ∈ s2, r.status ∈ (["neutral", "liked", "disliked"] : List String)) := by
  constructor
  · intro i status s2 hok r hr
    unfold update_status at hok
    by_cases hstat : (["liked", "disliked", "neutral"].contains status) = true
    · rw [hstat] at hok
      simp only [Bool.not_true, Bool.false_eq_true, if_false] at hok
      cases hget : store.get? i with
      | none =>
        rw [hget] at hok
        injection hok with hok
        rw [← hok] at hr
        exact hinv r hr
      | some r0 =>
        rw [hget] at hok
        injection hok with hok
        rw [← hok] at hr
        rcases List.mem_or_eq_of_mem_set hr with hmem | heq
        · exact hinv r hmem
        · rw [heq]
          show status ∈ (["neutral", "liked", "disliked"] : List String)
          have hin := contains_iff_mem.mp hstat
          simp only [List.mem_cons, List.mem_singleton] at hin ⊢
          tauto
    · rw [Bool.not_eq_true] at hstat
      rw [hstat] at hok
      simp at hok
  · intro dbUp searchFetch pageFetch insertFails payload res s2 hok r hr
    cases dbUp with
    | false =>
      rw [crawl_and_ingest_db_error] at hok
      exact absurd hok (by simp)
    | true =>
      by_cases hcity : (pyStrip payload.city).isEmpty = true
      · rw [crawl_and_ingest_city_error _ _ _ _ _ hcity] at hok
        exact absurd hok (by simp)
      · rw [Bool.not_eq_true] at hcity
        rw [crawl_and_ingest_ok _ _ _ _ _ hcity] at hok
        rw [Except.ok.injEq, Prod.mk.injEq] at hok
        obtain ⟨-, hs2⟩ := hok
        rw [← hs2] at hr
        exact ingestLoop_status_invariant (pyStrip payload.city) (payload.exams.getD [])
          insertFails (fun link => extract_basic_page_info link (pageFetch link))
          ["neutral", "liked", "disliked"] (by decide) _
          { created := 0, seen := [], store := store } hinv r hr

/-- C5 witness: updating a neutral record to `liked` keeps its status in
the enum. -/
theorem claim_status_enum_amended_witness :
    ({ neutralAlpha with status := "liked" } : Coaching).status
      ∈ (["neutral", "liked", "disliked"] : List String) := by
  have h := (claim_status_enum_amended [neutralAlpha] (by decide)).1 0 "liked"
    [{ neutralAlpha with status := "liked" }] (by rfl)
  exact h { neutralAlpha with status := "liked" } (List.mem_singleton.mpr rfl)

/-- C7: for any result page and positive limit the search provider
returns at most `limit` URLs, no two sharing a network domain, as a
subsequence of the parsed links (order preserved), each being the first
parsed link of its domain. -/
theorem claim_search_dedup (page : PageDoc) (limit : Nat) (h : 1 ≤ limit) :
    (ddg_search_urls (some page) limit).length ≤ limit
    ∧ ((ddg_search_urls (some page) limit).map netloc).Nodup
    ∧ (ddg_search_urls (some page) limit).Sublist (parsedLinks page limit)
    ∧ ∀ r ∈ ddg_search_urls (some page) limit,
        (parsedLinks page limit).find? (fun x => netloc x == netloc r) = some r := by
  have hres := dedupDomains_invariant limit (parsedLinks page limit) [] [] []
    (by intro d
        constructor
        · intro hd
          cases hd
        · intro hd
          obtain ⟨cc, hc, -⟩ := hd
          cases hc)
    (List.nil_sublist []) List.nodup_nil (by intro r hr; cases hr) h
    (by intro r hr; cases hr)
  rw [List.nil_append] at hres
  exact hres

/-- C7 witness: on a page with links on two domains and limit two the
result is short and domain-unique. -/
theorem claim_search_dedup_witness :
    (ddg_search_urls (some twoDomainsPage) 2).length ≤ 2
    ∧ ((ddg_search_urls (some twoDomainsPage) 2).map netloc).Nodup :=
  ⟨(claim_search_dedup twoDomainsPage 2 (by decide)).1,
   (claim_search_dedup twoDomainsPage 2 (by decide)).2.1⟩

/-- C1: for a candidate whose draft has just been built (its key unseen
in the batch) and whose insert would succeed, the coordinator leaves the
store and the created count unchanged exactly when the store holds a
record with the draft's website (exact match) or a record matching the
draft's name and the crawl city case-insensitively. -/
theorem claim_store_dedup_iff (store : Store) (seen : List String) (c : Nat)
    (city : String) (exams : List String) (pageFetch : String → Option PageDoc)
    (link : String) (hlink : pyStartsWith "http" link = true)
    (hkey : seen.contains (dedupKey link (extract_basic_page_info link (pageFetch link)))
        = false) :
    ((ingestStep city exams (fun _ => false)
          (fun l => extract_basic_page_info l (pageFetch l))
          { created := c, seen := seen, store := store } link).store = store
      ∧ (ingestStep city exams (fun _ => false)
            (fun l => extract_basic_page_info l (pageFetch l))
            { created := c, seen := seen, store := store } link).created = c)
      ↔ ((∃ w, (mkDoc city exams link (extract_basic_page_info link (pageFetch link))).website
              = some w ∧ ∃ r ∈ store, r.website = some w)
          ∨ ∃ r ∈ store,
              pyLower r.name
                  = pyLower (mkDoc city exams link
                      (extract_basic_page_info link (pageFetch link))).name
                ∧ pyLower r.city = pyLower city) := by
  have hne : link ≠ "" := by
    intro he
    rw [he] at hlink
    exact absurd hlink (by decide)
  have hweb : (extract_basic_page_info link (pageFetch link)).website = none
      ∨ (extract_basic_page_info link (pageFetch link)).website = some link := by
    rw [extract_website_eq]
    by_cases hg : pyIn "google." link = true
    · rw [if_pos hg]
      exact Or.inl rfl
    · rw [if_neg hg]
      exact Or.inr rfl
  constructor
  · intro hboth
    cases hdd : storeDedup store city
        (mkDoc city exams link (extract_basic_page_info link (pageFetch link))) with
    | none =>
      exfalso
      have hstep := ingestStep_of_inserted city exams (fun _ => false)
        (fun l => extract_basic_page_info l (pageFetch l))
        { created := c, seen := seen, store := store } link hkey hdd rfl
      rw [hstep] at hboth
      exact Nat.succ_ne_self c hboth.2
    | some r =>
      have hiff := (storeDedup_isSome_iff store city _).mp (by rw [hdd]; rfl)
      rcases hiff with ⟨w, hw, hwne, r2, hr2, hp2⟩ | ⟨r2, hr2, hp2⟩
      · exact Or.inl ⟨w, hw, r2, hr2, hp2⟩
      · rw [Bool.and_eq_true] at hp2
        refine Or.inr ⟨r2, hr2, ?_, ?_⟩
        · have h1 := hp2.1
          simp only [ciEq, beq_iff_eq] at h1
          exact h1
        · have h2 := hp2.2
          simp only [ciEq, beq_iff_eq] at h2
          exact h2
  · intro hrhs
    have hdd : (storeDedup store city
        (mkDoc city exams link (extract_basic_page_info link (pageFetch link)))).isSome
          = true := by
      rw [storeDedup_isSome_iff]
      rcases hrhs with ⟨w, hw, r2, hr2, hp2⟩ | ⟨r2, hr2, hname, hcity⟩
      · refine Or.inl ⟨w, hw, ?_, r2, hr2, hp2⟩
        have hmw : (mkDoc city exams link
            (extract_basic_page_info link (pageFetch link))).website
            = (extract_basic_page_info link (pageFetch link)).website := rfl
        rw [hmw] at hw
        rcases hweb with hnone | hsome
        · rw [hnone] at hw
          cases hw
        · rw [hsome] at hw
          injection hw with hw
          rw [← hw]
          intro he
          exact hne ((String.isEmpty_iff link).mp he)
      · refine Or.inr ⟨r2, hr2, ?_⟩
        rw [Bool.and_eq_true]
        constructor
        · simp only [ciEq, beq_iff_eq]
          exact hname
        · simp only [ciEq, beq_iff_eq]
          exact hcity
    have hstep := ingestStep_of_found city exams (fun _ => false)
      (fun l => extract_basic_page_info l (pageFetch l))
      { created := c, seen := seen, store := store } link hkey hdd
    rw [hstep]
    exact ⟨rfl, rfl⟩

/-- C1 witness: a candidate whose website already sits in the store is
skipped, leaving the store and the count unchanged. -/
theorem claim_store_dedup_iff_witness :
    (ingestStep "Delhi" [] (fun _ => false)
        (fun l => extract_basic_page_info l none)
        { created := 0, seen := [], store := [alphaRecord] } "http://alpha.example/").store
      = [alphaRecord]
    ∧ (ingestStep "Delhi" [] (fun _ => false)
        (fun l => extract_basic_page_info l none)
        { created := 0, seen := [], store := [alphaRecord] } "http://alpha.example/").created
      = 0 :=
  (claim_store_dedup_iff [alphaRecord] [] 0 "Delhi" [] (fun _ => none)
      "http://alpha.example/" (by decide) (by decide)).mpr
    (Or.inl ⟨"http://alpha.example/", rfl, alphaRecord, List.mem_singleton.mpr rfl, rfl⟩)

/-- C2: replaying a crawl whose first run succeeded, with the same
search and extraction outcomes and working inserts, against the store
produced by the first run, succeeds with zero created records. -/
theorem claim_crawl_idempotent (searchFetch pageFetch : String → Option PageDoc)
    (store : Store) (payload : CrawlRequest) (r1 : CrawlResult) (s1 : Store)
    (h : crawl_and_ingest true searchFetch pageFetch (fun _ => false) store payload
        = .ok (r1, s1)) :
    Except.map (fun p => (Prod.fst p).created)
      (crawl_and_ingest true searchFetch pageFetch (fun _ => false) s1 payload) = .ok 0 := by
  by_cases hcity : (pyStrip payload.city).isEmpty = true
  · rw [crawl_and_ingest_city_error _ _ _ _ _ hcity] at h
    exact absurd h (by simp)
  · rw [Bool.not_eq_true] at hcity
    rw [crawl_and_ingest_ok _ _ _ _ _ hcity] at h
    rw [crawl_and_ingest_ok _ _ _ _ _ hcity]
    rw [Except.ok.injEq, Prod.mk.injEq] at h
    obtain ⟨-, hs1⟩ := h
    subst hs1
    simp only [Except.map]
    rw [Except.ok.injEq]
    exact ingestLoop_created_of_superset (pyStrip payload.city) (payload.exams.getD [])
      (fun link => extract_basic_page_info link (pageFetch link)) _ [] 0 0 store _
      (fun r hr => hr)

/-- C2 witness: a concrete crawl of two candidates creates two records;
replaying it against the resulting store creates none. -/
theorem claim_crawl_idempotent_witness :
    Except.map (fun p => (Prod.fst p).created)
      (crawl_and_ingest true (fun _ => some idemPage) (fun _ => none) (fun _ => false)
        [idemDocA, idemDocB] idemReq) = .ok 0 :=
  claim_crawl_idempotent (fun _ => some idemPage) (fun _ => none) [] idemReq
    { ok := true, created := 2, scanned := 2 } [idemDocA, idemDocB] rfl

end CoachingLeads
